import Mathlib

/-!
Formal model of the tab / item-state / progress / diary logic of the
itinerary page.  Each definition is a direct translation of a function of
the tab script (the main script of the repository); theorems about the
definitions follow at the end of the file.

Modelling conventions:
* localStorage is a list of key/value pairs in insertion order; values are
  modelled at the granularity the program observes them: a plain string
  (as written for the lastDay and theme keys), a parsed JSON object with a
  completed flag and an optional note field (the only shape the program
  ever writes for item keys), or junk (a value that JSON.parse rejects or
  that parses to something without usable fields).
* JavaScript number-to-string conversion in template literals is modelled
  by an explicit decimal renderer; parseInt on an all-digit string by the
  corresponding reader.
-/

/-- Decimal digit character for a value below ten. -/
def digitChar : Nat → Char
  | 0 => '0'
  | 1 => '1'
  | 2 => '2'
  | 3 => '3'
  | 4 => '4'
  | 5 => '5'
  | 6 => '6'
  | 7 => '7'
  | 8 => '8'
  | 9 => '9'
  | _ => '*'

/-- Numeric value of a digit character. -/
def digitVal (c : Char) : Nat := c.toNat - 48

/-- Value of a decimal digit string, most significant digit first
(models parseInt(s, 10) on an all-digit string). -/
def digitsToNat (cs : List Char) : Nat :=
  cs.foldl (fun acc c => acc * 10 + digitVal c) 0

/-- Fuel-driven decimal rendering of a natural number. -/
def natDigitsAux : Nat → Nat → List Char
  | 0, _ => []
  | fuel + 1, n =>
      if n < 10 then [digitChar n]
      else natDigitsAux fuel (n / 10) ++ [digitChar (n % 10)]

/-- Decimal digits of a natural number, most significant digit first. -/
def natDigits (n : Nat) : List Char := natDigitsAux (n + 1) n

/-- Decimal string of a natural number (models the implicit
number-to-string conversion of JavaScript template literals). -/
def natRepr (n : Nat) : String := String.mk (natDigits n)

theorem digitVal_digitChar : ∀ m, m < 10 → digitVal (digitChar m) = m := by decide

theorem isDigit_digitChar : ∀ m, m < 10 → (digitChar m).isDigit = true := by decide

theorem digitsToNat_append_singleton (cs : List Char) (c : Char) :
    digitsToNat (cs ++ [c]) = digitsToNat cs * 10 + digitVal c := by
  simp [digitsToNat, List.foldl_append]

theorem digitsToNat_natDigitsAux (fuel : Nat) :
    ∀ n, n < fuel → digitsToNat (natDigitsAux fuel n) = n := by
  induction fuel with
  | zero => intro n h; omega
  | succ fuel ih =>
    intro n h
    by_cases h10 : n < 10
    · have hv := digitVal_digitChar n h10
      simp [natDigitsAux, h10, digitsToNat]
      omega
    · have hdiv : n / 10 < n := Nat.div_lt_self (by omega) (by omega)
      have hfuel : n / 10 < fuel := by omega
      rw [natDigitsAux, if_neg h10, digitsToNat_append_singleton, ih _ hfuel,
        digitVal_digitChar _ (Nat.mod_lt _ (by omega))]
      omega

theorem digitsToNat_natDigits (n : Nat) : digitsToNat (natDigits n) = n :=
  digitsToNat_natDigitsAux (n + 1) n (Nat.lt_succ_self n)

theorem natDigits_inj {m n : Nat} (h : natDigits m = natDigits n) : m = n := by
  have hm := digitsToNat_natDigits m
  rw [h, digitsToNat_natDigits] at hm
  omega

theorem natDigitsAux_all_digit (fuel : Nat) :
    ∀ n, n < fuel → ∀ c ∈ natDigitsAux fuel n, c.isDigit = true := by
  induction fuel with
  | zero => intro n h; omega
  | succ fuel ih =>
    intro n h c hc
    by_cases h10 : n < 10
    · rw [natDigitsAux, if_pos h10] at hc
      simp at hc
      exact hc ▸ isDigit_digitChar n h10
    · have hdiv : n / 10 < n := Nat.div_lt_self (by omega) (by omega)
      rw [natDigitsAux, if_neg h10] at hc
      rcases List.mem_append.mp hc with h1 | h2
      · exact ih _ (by omega) c h1
      · simp at h2
        exact h2 ▸ isDigit_digitChar _ (Nat.mod_lt _ (by omega))

theorem natDigits_all_digit (n : Nat) : ∀ c ∈ natDigits n, c.isDigit = true :=
  natDigitsAux_all_digit (n + 1) n (Nat.lt_succ_self n)

theorem natDigits_ne_nil (n : Nat) : natDigits n ≠ [] := by
  unfold natDigits natDigitsAux
  by_cases h10 : n < 10 <;> simp [h10]

theorem natRepr_inj {m n : Nat} (h : natRepr m = natRepr n) : m = n := by
  apply natDigits_inj
  have := congrArg String.data h
  simpa [natRepr] using this

/-- Key of the persisted state for item `idx` of day `dayId`; translation of
the template literal for the storage keys in the source. -/
def itemKey (dayId idx : Nat) : String :=
  "day-" ++ natRepr dayId ++ "-item-" ++ natRepr idx

/-- Character-level test for the day- prefix. -/
def startsWithDayChars : List Char → Bool
  | 'd' :: 'a' :: 'y' :: '-' :: _ => true
  | _ => false

/-- Translation of key.startsWith applied to the day- prefix. -/
def startsWithDay (s : String) : Bool := startsWithDayChars s.data

/-- Character-level matcher for the key pattern, the translation of the
regular expression used by updateDiary to recognise item keys:
a literal day- prefix, one or more digits, a literal -item- infix, and one
or more digits up to the end of the key.  Backtracking cannot produce any
other decomposition because a digit run never contains a dash, so the
greedy reading below is exactly the regular expression. -/
def matchKeyChars (cs : List Char) : Option (Nat × Nat) :=
  if startsWithDayChars cs then
    let rest := cs.drop 4
    let ds := rest.takeWhile Char.isDigit
    let r1 := rest.dropWhile Char.isDigit
    if ds.isEmpty then none
    else
      match r1 with
      | '-' :: 'i' :: 't' :: 'e' :: 'm' :: '-' :: r2 =>
        if r2.isEmpty then none
        else if r2.all Char.isDigit then some (digitsToNat ds, digitsToNat r2)
        else none
      | _ => none
  else none

/-- String-level key matcher. -/
def matchDayItemKey (s : String) : Option (Nat × Nat) := matchKeyChars s.data

theorem takeWhile_digits_append (D r : List Char)
    (hr : ∀ c cs, r = c :: cs → Char.isDigit c = false)
    (hD : ∀ c ∈ D, Char.isDigit c = true) :
    (D ++ r).takeWhile Char.isDigit = D ∧ (D ++ r).dropWhile Char.isDigit = r := by
  induction D with
  | nil =>
    cases r with
    | nil => simp
    | cons c cs => simp [List.takeWhile_cons, List.dropWhile_cons, hr c cs rfl]
  | cons d D ih =>
    have hd := hD d (by simp)
    have hrest := ih (fun c hc => hD c (by simp [hc]))
    simp [List.takeWhile_cons, List.dropWhile_cons, hd, hrest.1, hrest.2]

theorem itemKey_data (d i : Nat) :
    (itemKey d i).data =
      'd' :: 'a' :: 'y' :: '-' ::
        (natDigits d ++ ('-' :: 'i' :: 't' :: 'e' :: 'm' :: '-' :: natDigits i)) := by
  simp [itemKey, natRepr, String.data_append]

theorem matchDayItemKey_itemKey (d i : Nat) :
    matchDayItemKey (itemKey d i) = some (d, i) := by
  rw [matchDayItemKey, itemKey_data, matchKeyChars]
  have hsw : startsWithDayChars
      ('d' :: 'a' :: 'y' :: '-' ::
        (natDigits d ++ ('-' :: 'i' :: 't' :: 'e' :: 'm' :: '-' :: natDigits i))) = true := rfl
  rw [if_pos hsw]
  simp only [List.drop_succ_cons, List.drop_zero]
  have hspan := takeWhile_digits_append (natDigits d)
    ('-' :: 'i' :: 't' :: 'e' :: 'm' :: '-' :: natDigits i)
    (by intro c cs h; cases h; decide) (natDigits_all_digit d)
  simp only [hspan.1, hspan.2]
  have hne : (natDigits d).isEmpty = false := by
    cases h : natDigits d with
    | nil => exact absurd h (natDigits_ne_nil d)
    | cons a l => rfl
  rw [if_neg (by simp [hne])]
  have hne2 : (natDigits i).isEmpty = false := by
    cases h : natDigits i with
    | nil => exact absurd h (natDigits_ne_nil i)
    | cons a l => rfl
  rw [if_neg (by simp [hne2]), if_pos]
  · rw [digitsToNat_natDigits, digitsToNat_natDigits]
  · rw [List.all_eq_true]
    exact natDigits_all_digit i

theorem itemKey_inj {d i e j : Nat} (h : itemKey d i = itemKey e j) :
    d = e ∧ i = j := by
  have h1 := matchDayItemKey_itemKey d i
  rw [h, matchDayItemKey_itemKey] at h1
  have h2 := Option.some.inj h1
  exact ⟨(congrArg Prod.fst h2).symm, (congrArg Prod.snd h2).symm⟩


/-! ## The persisted key-value store (localStorage) -/

/-- A persisted value, at the granularity the program observes it.
`str` is a plain string as stored for the lastDay and theme keys;
`itemObj` is a JSON object with a boolean completed flag (its JavaScript
truthiness) and an optional note field, the only shape the program writes
at item keys; `junk` is any stored text that JSON.parse rejects or that
parses to a value without usable completed / note fields. -/
inductive Val where
  | str (s : String)
  | itemObj (completed : Bool) (note : Option String)
  | junk
  deriving DecidableEq

/-- localStorage: key/value pairs in insertion order. -/
abbrev Store := List (String × Val)

/-- localStorage.getItem: the value of the first entry with the key. -/
def getItem (st : Store) (k : String) : Option Val :=
  (st.find? (fun kv => kv.1 == k)).map (fun kv => kv.2)

/-- localStorage.setItem: overwrite the first entry with the key when one
exists, append a fresh entry otherwise. -/
def setItem : Store → String → Val → Store
  | [], k, v => [(k, v)]
  | p :: rest, k, v => if p.1 == k then (k, v) :: rest else p :: setItem rest k v

theorem getItem_nil (k : String) : getItem [] k = none := rfl

theorem getItem_cons (p : String × Val) (st : Store) (k : String) :
    getItem (p :: st) k = if p.1 == k then some p.2 else getItem st k := by
  cases h : (p.1 == k) <;> simp [getItem, List.find?_cons, h]

theorem setItem_cons (p : String × Val) (rest : Store) (k : String) (v : Val) :
    setItem (p :: rest) k v =
      if p.1 = k then (k, v) :: rest else p :: setItem rest k v := by
  rw [setItem]
  by_cases h : p.1 = k <;> simp [h]

theorem getItem_setItem_self (st : Store) (k : String) (v : Val) :
    getItem (setItem st k v) k = some v := by
  induction st with
  | nil => simp [setItem, getItem_cons]
  | cons p rest ih =>
    rw [setItem_cons]
    by_cases hp : p.1 = k
    · rw [if_pos hp]
      simp [getItem_cons]
    · rw [if_neg hp]
      simp [getItem_cons, hp, ih]

theorem getItem_setItem_ne (st : Store) (k k' : String) (v : Val) (h : k' ≠ k) :
    getItem (setItem st k v) k' = getItem st k' := by
  have hkk : ¬ k = k' := fun hk => h hk.symm
  induction st with
  | nil =>
    show getItem [(k, v)] k' = getItem [] k'
    rw [getItem_cons, getItem_nil, if_neg (by simpa using hkk)]
  | cons p rest ih =>
    rw [setItem_cons]
    by_cases hp : p.1 = k
    · rw [if_pos hp, getItem_cons, getItem_cons]
      simp [hp, hkk]
    · rw [if_neg hp, getItem_cons, getItem_cons, ih]

theorem getItem_eq_none_of_not_mem (st : Store) (k : String)
    (h : ∀ kv ∈ st, kv.1 ≠ k) : getItem st k = none := by
  unfold getItem
  rw [List.find?_eq_none.mpr]
  · rfl
  · intro kv hkv
    simpa using h kv hkv

/-- Keys of a store. -/
def storeKeys (st : Store) : List String := st.map Prod.fst

theorem getItem_eq_none_of_not_key (st : Store) (k : String)
    (h : k ∉ storeKeys st) : getItem st k = none := by
  apply getItem_eq_none_of_not_mem
  intro kv hkv hk
  exact h (hk ▸ List.mem_map.mpr ⟨kv, hkv, rfl⟩)

theorem storeKeys_setItem (st : Store) (k : String) (v : Val) :
    storeKeys (setItem st k v) =
      if k ∈ storeKeys st then storeKeys st else storeKeys st ++ [k] := by
  induction st with
  | nil => simp [setItem, storeKeys]
  | cons p rest ih =>
    rw [setItem_cons]
    by_cases hpk : p.1 = k
    · simp [storeKeys, hpk]
    · have hkp : ¬ k = p.1 := fun hk => hpk hk.symm
      rw [if_neg hpk]
      simp only [storeKeys, List.map_cons] at ih ⊢
      rw [ih]
      by_cases hmem : k ∈ rest.map Prod.fst <;>
        simp [List.mem_cons, hmem, hkp]

theorem storeKeys_setItem_nodup (st : Store) (k : String) (v : Val)
    (hnd : (storeKeys st).Nodup) : (storeKeys (setItem st k v)).Nodup := by
  rw [storeKeys_setItem]
  by_cases hmem : k ∈ storeKeys st
  · rw [if_pos hmem]; exact hnd
  · rw [if_neg hmem]
    simp [List.nodup_append, hnd, hmem]

/-! ## Itinerary data model -/

/-- One activity entry of a day (parseItinerary builds these from the
schedule list items of a day card). -/
structure Activity where
  time : String
  html : String
  transport : Option String
  deriving DecidableEq

/-- One day record of the itinerary, as extracted by parseItinerary. -/
structure Day where
  id : Nat
  title : String
  subtitle : String
  highlight : Option String
  schedule : List Activity
  deriving DecidableEq

/-! ## Item state: reading, display session, toggle and note events -/

/-- The in-memory saved object for one item after JSON parsing:
completed flag (JavaScript truthiness) and optional note field. -/
structure ItemState where
  completed : Bool
  note : Option String
  deriving DecidableEq

/-- Translation of `JSON.parse(localStorage.getItem(itemKey)) || {}` with
the surrounding try/catch: an absent value, a junk value or a plain string
all become the empty object (completed falsy, no note). -/
def readItem : Option Val → ItemState
  | some (Val.itemObj c n) => ⟨c, n⟩
  | _ => ⟨false, none⟩

/-- JavaScript truthiness of the note field (an empty string is falsy). -/
def noteTruthy : Option String → Bool
  | none => false
  | some s => !(s == "")

/-- Session state of one schedule list item: whether the completed class
is on the list element, the in-memory saved object shared by the two
click handlers, and the contents of the note display element (none when
the display is hidden). -/
structure ItemSession where
  completedShown : Bool
  saved : ItemState
  noteShown : Option String
  deriving DecidableEq

/-- Per-item initialisation in initScheduleItemsForDay: parse the saved
state, add the completed class when the flag is truthy, and fill and show
the note display when the note is truthy. -/
def initItem (st : Store) (key : String) : ItemSession :=
  let saved := readItem (getItem st key)
  { completedShown := saved.completed
    saved := saved
    noteShown := if noteTruthy saved.note then saved.note else none }

/-- Click handler of the done button: toggle the completed class, copy the
displayed state into the saved object, and persist it. -/
def toggleItem (st : Store) (key : String) (sess : ItemSession) :
    Store × ItemSession :=
  let shown := !sess.completedShown
  let saved : ItemState := { sess.saved with completed := shown }
  (setItem st key (Val.itemObj saved.completed saved.note),
    { sess with completedShown := shown, saved := saved })

/-- Click handler of the note button, after the prompt returned
`input` (none models a cancelled prompt): trim, delete the note field on
an empty result, otherwise store the trimmed text, then persist. -/
def setNoteEvent (st : Store) (key : String) (sess : ItemSession)
    (input : Option String) : Store × ItemSession :=
  match input with
  | none => (st, sess)
  | some note =>
    let trimmed := note.trim
    let saved : ItemState :=
      if trimmed == "" then { sess.saved with note := none }
      else { sess.saved with note := some trimmed }
    let shown : Option String := if trimmed == "" then none else some trimmed
    (setItem st key (Val.itemObj saved.completed saved.note),
      { sess with saved := saved, noteShown := shown })

/-! ## Day progress (updateDayProgress) -/

/-- The completion test updateDayProgress applies to one stored value:
`data && data.completed` after a try/catch JSON.parse. -/
def readCompleted : Option Val → Bool
  | some (Val.itemObj c _) => c
  | _ => false

/-- Number of completed items counted by the loop of updateDayProgress. -/
def countCompleted (st : Store) (dayId total : Nat) : Nat :=
  (List.range total).countP (fun i => readCompleted (getItem st (itemKey dayId i)))

/-- The tab label updateDayProgress writes for a day: a check mark when
all items are completed, a (completed/total) count otherwise, and the
bare label for a day without items. -/
def renderDayLabel (dayId completed total : Nat) : String :=
  let baseLabel := "Dia " ++ natRepr dayId
  if 0 < total then
    if completed == total then baseLabel ++ " ✓"
    else baseLabel ++ " (" ++ natRepr completed ++ "/" ++ natRepr total ++ ")"
  else baseLabel

/-- updateDayProgress: look the day up by its stringified id, recount the
completed items from the store and produce the new tab label; none when
the day is not in the itinerary (the function returns early and no tab is
updated). -/
def updateDayProgress (itin : List Day) (st : Store) (dayId : Nat) :
    Option String :=
  (itin.find? (fun d => natRepr d.id == natRepr dayId)).map (fun day =>
    renderDayLabel dayId (countCompleted st dayId day.schedule.length)
      day.schedule.length)

/-- Session state of one day panel: the store, one item session per
schedule list item, and the current text of the day tab. -/
structure DayUi where
  store : Store
  items : List ItemSession
  tabLabel : String
  deriving DecidableEq

/-- A click on the done button of item `j` of the day panel: toggle and
persist that item, then let updateDayProgress rewrite the tab label
(the label is left unchanged when the day is missing from the itinerary,
or when there is no item `j`). -/
def toggleEvent (itin : List Day) (dayId : Nat) (ui : DayUi) (j : Nat) : DayUi :=
  match ui.items[j]? with
  | none => ui
  | some sess =>
    let r := toggleItem ui.store (itemKey dayId j) sess
    { store := r.1
      items := ui.items.set j r.2
      tabLabel := (updateDayProgress itin r.1 dayId).getD ui.tabLabel }

/-- The count the specification describes: the number of persisted entries
that belong to the day (their key is the item key of the day for some item
index below the item total) and whose stored value has a truthy completed
flag. -/
def specCompletedCount (st : Store) (dayId total : Nat) : Nat :=
  st.countP (fun kv =>
    ((List.range total).any (fun i => kv.1 == itemKey dayId i))
      && readCompleted (some kv.2))

/-! ## Diary aggregation (updateDiary) -/

/-- The entry updateDiary collects from one stored pair: the key must
start with day-, the value must parse to an object with a truthy note,
and the key must match the item-key pattern; the entry pairs the parsed
day number with the note text. -/
def diaryEntryOf (kv : String × Val) : Option (Nat × String) :=
  if startsWithDay kv.1 then
    match kv.2 with
    | Val.itemObj _ (some n) =>
      if n == "" then none
      else
        match matchDayItemKey kv.1 with
        | some di => some (di.1, n)
        | none => none
    | _ => none
  else none

/-- The unsorted entry list of updateDiary: one pass over the whole
persisted key space in store order. -/
def diaryCollect (st : Store) : List (Nat × String) :=
  st.filterMap diaryEntryOf

/-- The comparator-based sort of updateDiary, ascending by day. -/
def sortByDay (l : List (Nat × String)) : List (Nat × String) :=
  l.insertionSort (fun a b => a.1 ≤ b.1)

/-- The diary list rendered by updateDiary: collected entries sorted
ascending by day. -/
def diaryEntries (st : Store) : List (Nat × String) :=
  sortByDay (diaryCollect st)

/-- The entries the specification describes: one per persisted key that
matches the day/item naming scheme and whose stored value has a
non-empty note. -/
def specDiaryEntryOf (kv : String × Val) : Option (Nat × String) :=
  match matchDayItemKey kv.1, kv.2 with
  | some di, Val.itemObj _ (some n) => if n = "" then none else some (di.1, n)
  | _, _ => none

/-- Specification-side diary list, unsorted. -/
def specDiaryEntries (st : Store) : List (Nat × String) :=
  st.filterMap specDiaryEntryOf

instance : IsTotal (Nat × String) (fun a b => a.1 ≤ b.1) :=
  ⟨fun a b => Nat.le_total a.1 b.1⟩

instance : IsTrans (Nat × String) (fun a b => a.1 ≤ b.1) :=
  ⟨fun _ _ _ h h2 => Nat.le_trans h h2⟩

theorem startsWithDay_of_match {s : String} {p : Nat × Nat}
    (h : matchDayItemKey s = some p) : startsWithDay s = true := by
  rw [matchDayItemKey, matchKeyChars] at h
  by_cases hs : startsWithDayChars s.data = true
  · exact hs
  · rw [if_neg (by simpa using hs)] at h
    exact absurd h (by simp)

theorem diaryEntryOf_eq_spec (kv : String × Val) :
    diaryEntryOf kv = specDiaryEntryOf kv := by
  cases hm : matchDayItemKey kv.1 with
  | some di =>
    have hsw := startsWithDay_of_match hm
    cases hv : kv.2 with
    | itemObj c n =>
      cases n with
      | some s =>
        by_cases hs : s = "" <;>
          simp [diaryEntryOf, specDiaryEntryOf, hm, hsw, hv, hs]
      | none => simp [diaryEntryOf, specDiaryEntryOf, hm, hsw, hv]
    | str s => simp [diaryEntryOf, specDiaryEntryOf, hm, hsw, hv]
    | junk => simp [diaryEntryOf, specDiaryEntryOf, hm, hsw, hv]
  | none =>
    cases hsw : startsWithDay kv.1 with
    | false => simp [diaryEntryOf, specDiaryEntryOf, hm, hsw]
    | true =>
      cases hv : kv.2 with
      | itemObj c n =>
        cases n with
        | some s =>
          by_cases hs : s = "" <;>
            simp [diaryEntryOf, specDiaryEntryOf, hm, hsw, hv, hs]
        | none => simp [diaryEntryOf, specDiaryEntryOf, hm, hsw, hv]
      | str s => simp [diaryEntryOf, specDiaryEntryOf, hm, hsw, hv]
      | junk => simp [diaryEntryOf, specDiaryEntryOf, hm, hsw, hv]

theorem diaryCollect_eq_spec (st : Store) :
    diaryCollect st = specDiaryEntries st := by
  unfold diaryCollect specDiaryEntries
  induction st with
  | nil => rfl
  | cons kv rest ih => simp [List.filterMap_cons, diaryEntryOf_eq_spec kv, ih]

/-! ## The loop count of updateDayProgress vs the entry count of the spec -/

theorem countP_range_update (f g : Nat → Bool) (n i0 : Nat) (hi : i0 < n)
    (hfg : ∀ i, i < n → i ≠ i0 → f i = g i) (hg : g i0 = false) :
    (List.range n).countP f = (if f i0 then 1 else 0) + (List.range n).countP g := by
  induction n with
  | zero => omega
  | succ n ih =>
    rw [List.range_succ, List.countP_append, List.countP_append]
    have hsingle : ∀ h : Nat → Bool, List.countP h [n] = if h n then 1 else 0 := by
      intro h
      rw [List.countP_cons, List.countP_nil]
      omega
    rw [hsingle f, hsingle g]
    by_cases hi0 : i0 = n
    · subst hi0
      have hcon : (List.range i0).countP f = (List.range i0).countP g := by
        apply List.countP_congr
        intro i hi2
        rw [hfg i (Nat.lt_succ_of_lt (List.mem_range.mp hi2))
          (Nat.ne_of_lt (List.mem_range.mp hi2))]
      rw [hcon, hg]
      simp only [Bool.false_eq_true, if_false]
      omega
    · have hlt : i0 < n := by omega
      have hfn : f n = g n := hfg n (Nat.lt_succ_self n) (fun hne => hi0 hne.symm)
      rw [ih hlt (fun i h1 h2 => hfg i (Nat.lt_succ_of_lt h1) h2), hfn]
      omega

theorem countCompleted_eq_spec (st : Store) (dayId total : Nat)
    (hnd : (storeKeys st).Nodup) :
    countCompleted st dayId total = specCompletedCount st dayId total := by
  induction st with
  | nil =>
    rw [countCompleted, specCompletedCount]
    rw [List.countP_eq_zero.mpr, List.countP_nil]
    intro i _
    simp [getItem_nil, readCompleted]
  | cons kv rest ih =>
    have hkeys : storeKeys (kv :: rest) = kv.1 :: storeKeys rest := rfl
    rw [hkeys, List.nodup_cons] at hnd
    have hk_not : kv.1 ∉ storeKeys rest := hnd.1
    have ih2 := ih hnd.2
    by_cases hhit : ∃ i, i < total ∧ kv.1 = itemKey dayId i
    · obtain ⟨i0, hi0, hkey⟩ := hhit
      have hany : ((List.range total).any (fun i => kv.1 == itemKey dayId i)) = true := by
        rw [List.any_eq_true]
        exact ⟨i0, List.mem_range.mpr hi0, by simp [hkey]⟩
      have hstep : ∀ i, i < total → i ≠ i0 →
          readCompleted (getItem (kv :: rest) (itemKey dayId i)) =
            readCompleted (getItem rest (itemKey dayId i)) := by
        intro i hilt hne
        rw [getItem_cons, if_neg]
        intro hcontra
        have hik : kv.1 = itemKey dayId i := by simpa using hcontra
        exact hne (itemKey_inj (hik.symm.trans hkey)).2
      have hg : readCompleted (getItem rest (itemKey dayId i0)) = false := by
        rw [getItem_eq_none_of_not_key rest _ (hkey ▸ hk_not)]
        rfl
      have h1 := countP_range_update
        (fun i => readCompleted (getItem (kv :: rest) (itemKey dayId i)))
        (fun i => readCompleted (getItem rest (itemKey dayId i)))
        total i0 hi0 hstep hg
      have h2 : getItem (kv :: rest) (itemKey dayId i0) = some kv.2 := by
        rw [getItem_cons, if_pos (by simp [hkey])]
      unfold countCompleted at ih2 ⊢
      unfold specCompletedCount at ih2 ⊢
      rw [h1]
      simp only [h2, ih2]
      simp only [List.countP_cons, hany, Bool.true_and]
      omega
    · push_neg at hhit
      have hany : ((List.range total).any (fun i => kv.1 == itemKey dayId i)) = false := by
        rw [List.any_eq_false]
        intro i hi
        simpa using hhit i (List.mem_range.mp hi)
      have hcon : countCompleted (kv :: rest) dayId total
          = countCompleted rest dayId total := by
        rw [countCompleted, countCompleted]
        apply List.countP_congr
        intro i hi
        rw [getItem_cons, if_neg]
        intro hcontra
        exact hhit i (List.mem_range.mp hi) (by simpa using hcontra)
      rw [hcon, ih2]
      unfold specCompletedCount
      simp only [List.countP_cons, hany, Bool.false_and, Bool.false_eq_true, if_false]
      omega

/-! ## URL query parameters -/

/-- Query parameters of the page URL, in order. -/
abbrev UrlParams := List (String × String)

/-- URLSearchParams.get: the first value for the name, none when absent. -/
def getParam (u : UrlParams) (k : String) : Option String :=
  (u.find? (fun p => p.1 == k)).map (fun p => p.2)

/-- URLSearchParams.delete: remove every pair with the name. -/
def deleteParam (u : UrlParams) (k : String) : UrlParams :=
  u.filter (fun p => !(p.1 == k))

/-- URLSearchParams.set: overwrite the first pair with the name and drop
any later pairs with it, append when the name is absent. -/
def setParam : UrlParams → String → String → UrlParams
  | [], k, v => [(k, v)]
  | p :: rest, k, v =>
    if p.1 == k then (k, v) :: deleteParam rest k else p :: setParam rest k v

theorem getParam_cons (p : String × String) (u : UrlParams) (k : String) :
    getParam (p :: u) k = if p.1 == k then some p.2 else getParam u k := by
  cases h : (p.1 == k) <;> simp [getParam, List.find?_cons, h]

theorem getParam_deleteParam (u : UrlParams) (k : String) :
    getParam (deleteParam u k) k = none := by
  induction u with
  | nil => rfl
  | cons p rest ih =>
    rw [deleteParam, List.filter_cons]
    by_cases hp : p.1 = k
    · simp only [hp, beq_self_eq_true, Bool.not_true, Bool.false_eq_true, if_false]
      exact ih
    · have : (!(p.1 == k)) = true := by simp [hp]
      rw [this, if_pos rfl, getParam_cons, if_neg (by simp [hp])]
      exact ih

theorem getParam_setParam_self (u : UrlParams) (k v : String) :
    getParam (setParam u k v) k = some v := by
  induction u with
  | nil => simp [setParam, getParam_cons]
  | cons p rest ih =>
    rw [setParam]
    by_cases hp : p.1 = k
    · rw [if_pos (by simp [hp]), getParam_cons, if_pos (by simp)]
    · rw [if_neg (by simp [hp]), getParam_cons, if_neg (by simp [hp])]
      exact ih

/-! ## Tabs, panels, and openTab -/

/-- One tab button: the identifier encoded in its DOM id (a stringified
day number or diary, as recovered by getIdFromTab) and its aria-selected
state.  The active class and the tabindex follow aria-selected in
lockstep in the source and are not modelled separately. -/
structure Tab where
  id : String
  selected : Bool
  deriving DecidableEq

/-- The page state the tab controller manipulates.  `panels` maps the
keys of window.tabPanels to panel visibility (true = active, not
hidden); panels are created lazily, so the list grows over time.
`url` holds the query parameters of the page URL. -/
structure UiState where
  itinerary : List Day
  tabs : List Tab
  panels : List (String × Bool)
  store : Store
  url : UrlParams
  deriving DecidableEq

/-- Tabs as buildTabs creates them: one per day, labelled by the
stringified day id, plus a diary tab when the diary section exists; all
start unselected. -/
def buildTabs (itin : List Day) (hasDiary : Bool) : List Tab :=
  (itin.map (fun d => { id := natRepr d.id, selected := false })) ++
    (if hasDiary then [{ id := "diary", selected := false }] else [])

/-- createPanel: register the diary panel, or the panel of the first day
whose stringified id equals the requested id; an id matching no day
registers nothing (the function returns early).  Visibility of a fresh
panel is set by the caller right afterwards, so it starts false here. -/
def createPanel (ui : UiState) (id : String) : List (String × Bool) :=
  if id == "diary" then ui.panels ++ [(id, false)]
  else
    match ui.itinerary.find? (fun d => natRepr d.id == id) with
    | some _ => ui.panels ++ [(id, false)]
    | none => ui.panels

/-- openTab: mark exactly the tabs whose id equals the requested id as
selected, create the panel on demand, show the panel stored under the
requested key and hide all others, persist the id under lastDay unless
the id is the diary, and mirror the id in the dia query parameter
(deleting the parameter for the diary). -/
def openTab (ui : UiState) (id : String) : UiState :=
  let tabs := ui.tabs.map (fun t => { t with selected := t.id == id })
  let panels0 :=
    if ui.panels.any (fun p => p.1 == id) then ui.panels else createPanel ui id
  let panels := panels0.map (fun p => (p.1, p.1 == id))
  let store :=
    if id == "diary" then ui.store else setItem ui.store "lastDay" (Val.str id)
  let url :=
    if id == "diary" then deleteParam ui.url "dia" else setParam ui.url "dia" id
  { ui with tabs := tabs, panels := panels, store := store, url := url }

/-! ## Initial activation (restoreLastDay) -/

/-- The fallback id when nothing was resolved: the first day when the
itinerary is non-empty, the diary otherwise. -/
def defaultId (itin : List Day) : String :=
  match itin with
  | [] => "diary"
  | d :: _ => natRepr d.id

/-- The id resolution of restoreLastDay: the dia URL parameter when the
parameter is present, otherwise the raw localStorage value of lastDay;
when the result is null or the empty string (both falsy), fall back to
the default.  `lastDayRaw` is the raw string the storage read returns
(none for null). -/
def resolveInitialId (urlDia : Option String) (lastDayRaw : Option String)
    (itin : List Day) : String :=
  let id := if urlDia.isSome then urlDia else lastDayRaw
  match id with
  | none => defaultId itin
  | some s => if s == "" then defaultId itin else s

/-- The resolution order in the words of the specification: the URL
parameter if present, else the persisted last-day value if present, else
the first day of a non-empty itinerary, else the diary. -/
def specResolveInitialId (urlDia : Option String) (lastDayRaw : Option String)
    (itin : List Day) : String :=
  match urlDia with
  | some s => s
  | none =>
    match lastDayRaw with
    | some s => s
    | none => defaultId itin

/-- The amended resolution order: as the specification, except that a
value resolved from the URL parameter or from the persisted last-day
entry that is the empty string falls through to the default (first day,
else diary), and an empty URL parameter also bypasses the last-day
lookup. -/
def amendedResolveInitialId (urlDia : Option String) (lastDayRaw : Option String)
    (itin : List Day) : String :=
  let chosen :=
    match urlDia with
    | some s => some s
    | none => lastDayRaw
  match chosen with
  | none => defaultId itin
  | some s => if s = "" then defaultId itin else s

/-- restoreLastDay: resolve the id and activate it.  The raw lastDay
string is a parameter because the store abstraction retains raw text only
for plain string values, the single shape the program writes at that
key. -/
def restoreLastDay (ui : UiState) (lastDayRaw : Option String) : UiState :=
  openTab ui (resolveInitialId (getParam ui.url "dia") lastDayRaw ui.itinerary)

/-- The last element of an activation sequence that is not the diary. -/
def lastNonDiary : List String → Option String
  | [] => none
  | a :: rest =>
    match lastNonDiary rest with
    | some i => some i
    | none => if a = "diary" then none else some a

/-! ## Keyboard navigation (handleTabKeyNav) -/

/-- The keys handleTabKeyNav distinguishes. -/
inductive NavKey where
  | arrowRight
  | arrowLeft
  | homeKey
  | endKey
  | enterOrSpace
  | otherKey
  deriving DecidableEq

/-- handleTabKeyNav: `focusIdx` is the index of the focused element among
the tabs (an out-of-range index models a focus target without the tab
role).  Arrows move relative to the currently selected tab (index -1
when none is selected, as findIndex returns), Home and End jump, Enter
and Space activate the focused tab and keep the focus where it is; other
keys do nothing.  The JavaScript remainder agrees with Int.emod on every
dividend reachable here: the dividend is at least -1, the divisor is
positive, and -1 rem 1 = 0 under both operators. -/
def handleTabKeyNav (ui : UiState) (focusIdx : Nat) (k : NavKey) :
    UiState × Nat :=
  let tabs := ui.tabs
  if tabs.length = 0 then (ui, focusIdx)
  else
    let len : Int := tabs.length
    let cur : Int :=
      match tabs.findIdx? (fun t => t.selected) with
      | some n => (n : Int)
      | none => -1
    match k with
    | NavKey.enterOrSpace =>
      match tabs[focusIdx]? with
      | some t => (openTab ui t.id, focusIdx)
      | none => (ui, focusIdx)
    | NavKey.otherKey => (ui, focusIdx)
    | key =>
      let newIndex : Int :=
        match key with
        | NavKey.arrowRight => (cur + 1) % len
        | NavKey.arrowLeft => (cur - 1 + len) % len
        | NavKey.homeKey => 0
        | NavKey.endKey => len - 1
        | _ => cur
      let newIndex := if newIndex < 0 then 0 else newIndex
      let newIndex := if len ≤ newIndex then len - 1 else newIndex
      match tabs[newIndex.toNat]? with
      | some t => (openTab ui t.id, newIndex.toNat)
      | none => (ui, focusIdx)

/-! ## Removing or neutralising one key: effect on reads, counts, diary -/

theorem getItem_filter_ne (st : Store) (k k' : String) (h : k' ≠ k) :
    getItem (st.filter (fun kv => !(kv.1 == k))) k' = getItem st k' := by
  induction st with
  | nil => rfl
  | cons p rest ih =>
    rw [List.filter_cons]
    by_cases hp : p.1 = k
    · have hcond : (!(p.1 == k)) = false := by simp [hp]
      have hkk : ¬ k = k' := fun hk => h hk.symm
      rw [hcond, if_neg (by simp), getItem_cons, if_neg (by simp [hp, hkk]), ih]
    · have hcond : (!(p.1 == k)) = true := by simp [hp]
      rw [hcond, if_pos rfl, getItem_cons, getItem_cons, ih]

theorem getItem_filter_self (st : Store) (k : String) :
    getItem (st.filter (fun kv => !(kv.1 == k))) k = none := by
  apply getItem_eq_none_of_not_mem
  intro kv hkv
  have := List.of_mem_filter hkv
  simpa using this

theorem filter_eq_self_of_not_key (st : Store) (k : String)
    (h : k ∉ storeKeys st) : st.filter (fun kv => !(kv.1 == k)) = st := by
  apply List.filter_eq_self.mpr
  intro kv hkv
  simp only [Bool.not_eq_eq_eq_not, Bool.not_true, beq_eq_false_iff_ne, ne_eq]
  intro hk
  exact h (hk ▸ List.mem_map.mpr ⟨kv, hkv, rfl⟩)

theorem diaryEntryOf_no_note (k : String) (c : Bool) :
    diaryEntryOf (k, Val.itemObj c none) = none := by
  cases h : startsWithDay k <;> simp [diaryEntryOf, h]

theorem diaryEntryOf_junk (k : String) : diaryEntryOf (k, Val.junk) = none := by
  cases h : startsWithDay k <;> simp [diaryEntryOf, h]

theorem diaryCollect_setItem_noNote (st : Store) (k : String) (c : Bool)
    (hnd : (storeKeys st).Nodup) :
    diaryCollect (setItem st k (Val.itemObj c none)) =
      diaryCollect (st.filter (fun kv => !(kv.1 == k))) := by
  induction st with
  | nil =>
    show diaryCollect [(k, Val.itemObj c none)] = diaryCollect []
    simp [diaryCollect, List.filterMap_cons, diaryEntryOf_no_note]
  | cons p rest ih =>
    have hkeys : storeKeys (p :: rest) = p.1 :: storeKeys rest := rfl
    rw [hkeys, List.nodup_cons] at hnd
    rw [setItem_cons, List.filter_cons]
    by_cases hp : p.1 = k
    · rw [if_pos hp]
      have hcond : (!(p.1 == k)) = false := by simp [hp]
      rw [hcond, if_neg (by simp)]
      have hrest : rest.filter (fun kv => !(kv.1 == k)) = rest :=
        filter_eq_self_of_not_key rest k (hp ▸ hnd.1)
      rw [hrest]
      unfold diaryCollect
      rw [List.filterMap_cons, diaryEntryOf_no_note]
    · rw [if_neg hp]
      have hcond : (!(p.1 == k)) = true := by simp [hp]
      rw [hcond, if_pos rfl]
      unfold diaryCollect at ih ⊢
      rw [List.filterMap_cons, List.filterMap_cons, ih hnd.2]

theorem diaryCollect_filter_of_inert (st : Store) (k : String)
    (hnd : (storeKeys st).Nodup)
    (hval : getItem st k = none ∨ getItem st k = some Val.junk) :
    diaryCollect st = diaryCollect (st.filter (fun kv => !(kv.1 == k))) := by
  induction st with
  | nil => rfl
  | cons p rest ih =>
    have hkeys : storeKeys (p :: rest) = p.1 :: storeKeys rest := rfl
    rw [hkeys, List.nodup_cons] at hnd
    rw [List.filter_cons]
    by_cases hp : p.1 = k
    · have hget : getItem (p :: rest) k = some p.2 := by
        rw [getItem_cons, if_pos (by simp [hp])]
      have hjunk : p.2 = Val.junk := by
        rcases hval with h1 | h1
        · rw [hget] at h1; cases h1
        · rw [hget] at h1; exact Option.some.inj h1
      have hcond : (!(p.1 == k)) = false := by simp [hp]
      rw [hcond, if_neg (by simp)]
      have hrest : rest.filter (fun kv => !(kv.1 == k)) = rest :=
        filter_eq_self_of_not_key rest k (hp ▸ hnd.1)
      rw [hrest]
      unfold diaryCollect
      have hpk : p = (p.1, p.2) := rfl
      rw [List.filterMap_cons]
      rw [hpk, hp, hjunk, diaryEntryOf_junk]
    · have hvr : getItem rest k = none ∨ getItem rest k = some Val.junk := by
        rwa [getItem_cons, if_neg (by simp [hp])] at hval
      have hcond : (!(p.1 == k)) = true := by simp [hp]
      rw [hcond, if_pos rfl]
      unfold diaryCollect at ih ⊢
      rw [List.filterMap_cons, List.filterMap_cons, ih hnd.2 hvr]

theorem countCompleted_filter_of_inert (st : Store) (dayId total idx : Nat)
    (hval : getItem st (itemKey dayId idx) = none ∨
      getItem st (itemKey dayId idx) = some Val.junk) :
    countCompleted st dayId total =
      countCompleted (st.filter (fun kv => !(kv.1 == itemKey dayId idx))) dayId total := by
  unfold countCompleted
  apply List.countP_congr
  intro i _
  by_cases hik : i = idx
  · subst hik
    rw [getItem_filter_self]
    rcases hval with h1 | h1 <;> simp [h1, readCompleted]
  · rw [getItem_filter_ne]
    intro hcontra
    exact hik (itemKey_inj hcontra).2

/-! ## Claim theorems -/

/-- Claim C2: for every item key (day id, index) and every starting
persisted store, toggling the completion twice returns the completed
state to its original value, both as displayed (the completed class) and
as read back from the store, and leaves the persisted note field of the
item unchanged. -/
theorem toggle_twice_id (st : Store) (d i : Nat) :
    ((toggleItem (toggleItem st (itemKey d i) (initItem st (itemKey d i))).1
        (itemKey d i)
        (toggleItem st (itemKey d i) (initItem st (itemKey d i))).2).2.completedShown
      = (initItem st (itemKey d i)).completedShown) ∧
    ((readItem (getItem (toggleItem (toggleItem st (itemKey d i)
          (initItem st (itemKey d i))).1 (itemKey d i)
          (toggleItem st (itemKey d i) (initItem st (itemKey d i))).2).1
        (itemKey d i))).completed
      = (readItem (getItem st (itemKey d i))).completed) ∧
    ((readItem (getItem (toggleItem (toggleItem st (itemKey d i)
          (initItem st (itemKey d i))).1 (itemKey d i)
          (toggleItem st (itemKey d i) (initItem st (itemKey d i))).2).1
        (itemKey d i))).note
      = (readItem (getItem st (itemKey d i))).note) := by
  refine ⟨?_, ?_, ?_⟩ <;>
    simp [toggleItem, initItem, getItem_setItem_self, readItem]

/-- Claim C3: after every aggregation the diary list is a permutation of
the list holding exactly one entry per persisted key that matches the
day/item naming scheme and whose stored value has a non-empty note, and
the diary list is sorted ascending by day id. -/
theorem diary_exact_and_sorted (st : Store) :
    (diaryEntries st).Perm (specDiaryEntries st) ∧
      (diaryEntries st).Pairwise (fun a b => a.1 ≤ b.1) := by
  constructor
  · rw [diaryEntries, ← diaryCollect_eq_spec]
    exact List.perm_insertionSort _ _
  · exact List.sorted_insertionSort _ _

/-- Claim C5: activating a day id writes that id into the dia query
parameter of the URL; activating the diary removes the parameter. -/
theorem openTab_url_param (ui : UiState) (id : String) :
    getParam (openTab ui id).url "dia" =
      if id = "diary" then none else some id := by
  by_cases h : id = "diary"
  · simp [openTab, h, getParam_deleteParam]
  · simp [openTab, h, getParam_setParam_self]

/-- Claim C7: an absent or unparseable persisted value for an item reads
back as the default state (completed false, no note); the failure is
swallowed: the item is displayed unticked with a hidden note display,
contributes nothing to the progress count, and yields no diary entry, the
same as if the key were not stored at all. -/
theorem missing_state_defaults (st : Store) (d i total : Nat)
    (hnd : (storeKeys st).Nodup)
    (hval : getItem st (itemKey d i) = none ∨
      getItem st (itemKey d i) = some Val.junk) :
    readItem (getItem st (itemKey d i)) = ⟨false, none⟩ ∧
    (initItem st (itemKey d i)).completedShown = false ∧
    (initItem st (itemKey d i)).noteShown = none ∧
    countCompleted st d total
      = countCompleted (st.filter (fun kv => !(kv.1 == itemKey d i))) d total ∧
    diaryEntries st = diaryEntries (st.filter (fun kv => !(kv.1 == itemKey d i))) := by
  have hread : readItem (getItem st (itemKey d i)) = ⟨false, none⟩ := by
    rcases hval with h | h <;> rw [h] <;> rfl
  refine ⟨hread, ?_, ?_, ?_, ?_⟩
  · simp [initItem, hread]
  · simp [initItem, hread, noteTruthy]
  · exact countCompleted_filter_of_inert st d total i hval
  · rw [diaryEntries, diaryEntries,
      diaryCollect_filter_of_inert st (itemKey d i) hnd hval]

/-- Claim C7 witness: a concrete store holding a junk value for item 0 of
day 1 and a parseable completed entry for item 1. -/
theorem missing_state_defaults_witness :
    ((storeKeys [("day-1-item-0", Val.junk),
        ("day-1-item-1", Val.itemObj true none)]).Nodup ∧
      (getItem [("day-1-item-0", Val.junk),
        ("day-1-item-1", Val.itemObj true none)] (itemKey 1 0) = none ∨
        getItem [("day-1-item-0", Val.junk),
          ("day-1-item-1", Val.itemObj true none)] (itemKey 1 0)
          = some Val.junk)) ∧
    (readItem (getItem [("day-1-item-0", Val.junk),
        ("day-1-item-1", Val.itemObj true none)] (itemKey 1 0)) = ⟨false, none⟩ ∧
      (initItem [("day-1-item-0", Val.junk),
        ("day-1-item-1", Val.itemObj true none)] (itemKey 1 0)).completedShown = false ∧
      (initItem [("day-1-item-0", Val.junk),
        ("day-1-item-1", Val.itemObj true none)] (itemKey 1 0)).noteShown = none ∧
      countCompleted [("day-1-item-0", Val.junk),
          ("day-1-item-1", Val.itemObj true none)] 1 2
        = countCompleted ([("day-1-item-0", Val.junk),
            ("day-1-item-1", Val.itemObj true none)].filter
            (fun kv => !(kv.1 == itemKey 1 0))) 1 2 ∧
      diaryEntries [("day-1-item-0", Val.junk),
          ("day-1-item-1", Val.itemObj true none)]
        = diaryEntries ([("day-1-item-0", Val.junk),
            ("day-1-item-1", Val.itemObj true none)].filter
            (fun kv => !(kv.1 == itemKey 1 0)))) :=
  ⟨⟨by decide, by decide⟩,
    missing_state_defaults _ 1 0 2 (by decide) (by decide)⟩

/-- Claim C4: for an item whose in-memory saved object agrees with the
persisted state, saving a note whose trimmed text is non-empty persists
the trimmed string as the note field; saving a note that trims to the
empty string removes only the note field, keeps the persisted completed
flag, and the item produces no entry in the next diary aggregation (the
diary equals the diary of the store without that key). -/
theorem setNote_behaviour (st : Store) (d i : Nat) (sess : ItemSession)
    (input : String)
    (hnd : (storeKeys st).Nodup)
    (hsync : sess.saved = readItem (getItem st (itemKey d i))) :
    (input.trim ≠ "" →
      (readItem (getItem (setNoteEvent st (itemKey d i) sess (some input)).1
          (itemKey d i))).note = some input.trim ∧
      (readItem (getItem (setNoteEvent st (itemKey d i) sess (some input)).1
          (itemKey d i))).completed
        = (readItem (getItem st (itemKey d i))).completed) ∧
    (input.trim = "" →
      (readItem (getItem (setNoteEvent st (itemKey d i) sess (some input)).1
          (itemKey d i))).note = none ∧
      (readItem (getItem (setNoteEvent st (itemKey d i) sess (some input)).1
          (itemKey d i))).completed
        = (readItem (getItem st (itemKey d i))).completed ∧
      diaryEntries (setNoteEvent st (itemKey d i) sess (some input)).1
        = diaryEntries (st.filter (fun kv => !(kv.1 == itemKey d i)))) := by
  constructor
  · intro htrim
    have hne : (input.trim == "") = false := by simp [htrim]
    have hstore : (setNoteEvent st (itemKey d i) sess (some input)).1
        = setItem st (itemKey d i)
            (Val.itemObj sess.saved.completed (some input.trim)) := by
      simp [setNoteEvent, hne]
    rw [hstore, getItem_setItem_self]
    exact ⟨rfl, by rw [hsync]; rfl⟩
  · intro htrim
    have heq : (input.trim == "") = true := by simp [htrim]
    have hstore : (setNoteEvent st (itemKey d i) sess (some input)).1
        = setItem st (itemKey d i) (Val.itemObj sess.saved.completed none) := by
      simp [setNoteEvent, heq]
    rw [hstore, getItem_setItem_self]
    refine ⟨rfl, by rw [hsync]; rfl, ?_⟩
    rw [diaryEntries, diaryEntries, diaryCollect_setItem_noNote _ _ _ hnd]

/-- Claim C4 witness: a store with a completed item carrying a note; the
note is cleared with blank input. -/
theorem setNote_behaviour_witness :
    ((storeKeys [("day-2-item-0", Val.itemObj true (some "memo"))]).Nodup ∧
      (initItem [("day-2-item-0", Val.itemObj true (some "memo"))]
          (itemKey 2 0)).saved
        = readItem (getItem [("day-2-item-0", Val.itemObj true (some "memo"))]
            (itemKey 2 0))) ∧
    ((" ".trim ≠ "" →
      (readItem (getItem (setNoteEvent
          [("day-2-item-0", Val.itemObj true (some "memo"))] (itemKey 2 0)
          (initItem [("day-2-item-0", Val.itemObj true (some "memo"))]
            (itemKey 2 0)) (some " ")).1 (itemKey 2 0))).note = some " ".trim ∧
      (readItem (getItem (setNoteEvent
          [("day-2-item-0", Val.itemObj true (some "memo"))] (itemKey 2 0)
          (initItem [("day-2-item-0", Val.itemObj true (some "memo"))]
            (itemKey 2 0)) (some " ")).1 (itemKey 2 0))).completed
        = (readItem (getItem [("day-2-item-0", Val.itemObj true (some "memo"))]
            (itemKey 2 0))).completed) ∧
    (" ".trim = "" →
      (readItem (getItem (setNoteEvent
          [("day-2-item-0", Val.itemObj true (some "memo"))] (itemKey 2 0)
          (initItem [("day-2-item-0", Val.itemObj true (some "memo"))]
            (itemKey 2 0)) (some " ")).1 (itemKey 2 0))).note = none ∧
      (readItem (getItem (setNoteEvent
          [("day-2-item-0", Val.itemObj true (some "memo"))] (itemKey 2 0)
          (initItem [("day-2-item-0", Val.itemObj true (some "memo"))]
            (itemKey 2 0)) (some " ")).1 (itemKey 2 0))).completed
        = (readItem (getItem [("day-2-item-0", Val.itemObj true (some "memo"))]
            (itemKey 2 0))).completed ∧
      diaryEntries (setNoteEvent
          [("day-2-item-0", Val.itemObj true (some "memo"))] (itemKey 2 0)
          (initItem [("day-2-item-0", Val.itemObj true (some "memo"))]
            (itemKey 2 0)) (some " ")).1
        = diaryEntries ([("day-2-item-0", Val.itemObj true (some "memo"))].filter
            (fun kv => !(kv.1 == itemKey 2 0))))) :=
  ⟨⟨by decide, by decide⟩,
    setNote_behaviour [("day-2-item-0", Val.itemObj true (some "memo"))] 2 0
      (initItem [("day-2-item-0", Val.itemObj true (some "memo"))] (itemKey 2 0))
      " " (by decide) (by decide)⟩

/-- A concrete day record used in counterexamples and witnesses. -/
def sampleDay : Day :=
  { id := 1, title := "t", subtitle := "s", highlight := none, schedule := [] }

/-- Claim C6 counterexample: with the dia parameter present but holding
the empty string and a persisted last day 3, the code activates day 1
(the first-day fallback), while the resolution order stated by the claim
uses the present URL parameter (and under a non-empty reading of
presence it would use the persisted value 3); the stated order and the
code disagree on this input. -/
theorem resolve_initial_counterexample :
    resolveInitialId (some "") (some "3") [sampleDay] = "1" ∧
      specResolveInitialId (some "") (some "3") [sampleDay] = "" ∧
      resolveInitialId (some "") (some "3") [sampleDay]
        ≠ specResolveInitialId (some "") (some "3") [sampleDay] := by
  refine ⟨by decide, by decide, by decide⟩

/-- Claim C6 amended: the activated id resolves to the dia URL parameter
when the parameter is present, otherwise to the persisted last-day value;
a resolved value that is absent or the empty string falls back to the
first day of a non-empty itinerary and to the diary otherwise (so an
empty URL parameter also bypasses the last-day lookup); in particular,
with no persisted state and no URL parameter the first day is
activated. -/
theorem resolve_initial_amended :
    (∀ urlDia lastDayRaw itin,
      resolveInitialId urlDia lastDayRaw itin
        = amendedResolveInitialId urlDia lastDayRaw itin) ∧
    (∀ d rest, resolveInitialId none none (d :: rest) = natRepr d.id) := by
  constructor
  · intro u l itin
    cases u with
    | none =>
      cases l with
      | none => rfl
      | some s =>
        by_cases hs : s = "" <;>
          simp [resolveInitialId, amendedResolveInitialId, hs]
    | some s =>
      by_cases hs : s = "" <;>
        simp [resolveInitialId, amendedResolveInitialId, hs]
  · intro d rest
    rfl

theorem openTab_itinerary (ui : UiState) (id : String) :
    (openTab ui id).itinerary = ui.itinerary := rfl

theorem openTab_store_diary (ui : UiState) :
    (openTab ui "diary").store = ui.store := by
  simp [openTab]

theorem openTab_lastDay (ui : UiState) (id : String) :
    getItem (openTab ui id).store "lastDay" =
      if id = "diary" then getItem ui.store "lastDay"
      else some (Val.str id) := by
  by_cases h : id = "diary"
  · simp [openTab, h]
  · simp [openTab, h, getItem_setItem_self]

theorem lastDay_after_foldl (ids : List String) :
    ∀ ui : UiState,
      getItem ((ids.foldl openTab ui).store) "lastDay" =
        match lastNonDiary ids with
        | some i => some (Val.str i)
        | none => getItem ui.store "lastDay" := by
  induction ids with
  | nil => intro ui; rfl
  | cons a rest ih =>
    intro ui
    rw [List.foldl_cons, ih (openTab ui a), lastNonDiary]
    cases hr : lastNonDiary rest with
    | some i => rfl
    | none =>
      rw [openTab_lastDay]
      by_cases ha : a = "diary" <;> simp [ha]

theorem lastNonDiary_mem (ids : List String) :
    ∀ i, lastNonDiary ids = some i → i ∈ ids ∧ i ≠ "diary" := by
  induction ids with
  | nil => intro i h; cases h
  | cons a rest ih =>
    intro i h
    rw [lastNonDiary] at h
    cases hr : lastNonDiary rest with
    | some j =>
      rw [hr] at h
      have hij : j = i := Option.some.inj h
      rw [← hij]
      exact ⟨List.mem_cons_of_mem a (ih j hr).1, (ih j hr).2⟩
    | none =>
      rw [hr] at h
      by_cases ha : a = "diary"
      · rw [if_pos ha] at h; cases h
      · rw [if_neg ha] at h
        have hia : a = i := Option.some.inj h
        rw [← hia]
        exact ⟨List.mem_cons_self a rest, ha⟩

theorem foldl_openTab_itinerary (ids : List String) :
    ∀ ui : UiState, (ids.foldl openTab ui).itinerary = ui.itinerary := by
  induction ids with
  | nil => intro ui; rfl
  | cons a rest ih => intro ui; rw [List.foldl_cons, ih, openTab_itinerary]

/-- Claim C10: activating the diary leaves the persisted lastDay entry
untouched; after any sequence of activations of existing tabs (day ids
of the itinerary or the diary), the stored lastDay value is the
stringified id of the most recently activated day and is never the
diary, and when the sequence activated no day the entry keeps its
previous value. -/
theorem lastDay_tracks_days (ui : UiState) (ids : List String)
    (hids : ∀ i ∈ ids, i = "diary" ∨ ∃ d ∈ ui.itinerary, i = natRepr d.id) :
    (match lastNonDiary ids with
     | some i =>
        getItem ((ids.foldl openTab ui).store) "lastDay" = some (Val.str i)
          ∧ i ≠ "diary" ∧ ∃ d ∈ ui.itinerary, i = natRepr d.id
     | none =>
        getItem ((ids.foldl openTab ui).store) "lastDay"
          = getItem ui.store "lastDay") := by
  cases hr : lastNonDiary ids with
  | some i =>
    have hmem := lastNonDiary_mem ids i hr
    have hday : ∃ d ∈ ui.itinerary, i = natRepr d.id := by
      rcases hids i hmem.1 with h | h
      · exact absurd h hmem.2
      · exact h
    refine ⟨?_, hmem.2, hday⟩
    rw [lastDay_after_foldl, hr]
  | none =>
    rw [lastDay_after_foldl, hr]

/-- Claim C10 witness: activating day 1 and then the diary leaves day 1
as the persisted last day. -/
theorem lastDay_tracks_days_witness :
    (∀ i ∈ ["1", "diary"], i = "diary" ∨
      ∃ d ∈ [sampleDay], i = natRepr d.id) ∧
    (getItem (((["1", "diary"] : List String).foldl openTab
        { itinerary := [sampleDay], tabs := [], panels := [],
          store := [], url := [] }).store) "lastDay" = some (Val.str "1")
      ∧ "1" ≠ "diary" ∧ ∃ d ∈ [sampleDay], "1" = natRepr d.id) :=
  ⟨by decide,
    lastDay_tracks_days
      { itinerary := [sampleDay], tabs := [], panels := [],
        store := [], url := [] } ["1", "diary"] (by decide)⟩

/-- Claim C1: for a day that updateDayProgress finds in the itinerary
under its stringified id and a store with distinct keys, the completed
count of the day tab label equals the specification count (the persisted
completed-true entries of the day, against the total item count), and
after every completion toggle the tab label is rewritten from the new
store, so the displayed progress is again the specification count of the
persisted state over the total. -/
theorem day_progress_invariant (itin : List Day) (day : Day) (ui : DayUi)
    (j : Nat)
    (hfind : itin.find? (fun d => natRepr d.id == natRepr day.id) = some day)
    (hnd : (storeKeys ui.store).Nodup) :
    countCompleted ui.store day.id day.schedule.length
      = specCompletedCount ui.store day.id day.schedule.length ∧
    ∀ sess, ui.items[j]? = some sess →
      (toggleEvent itin day.id ui j).tabLabel
        = renderDayLabel day.id
            (specCompletedCount (toggleEvent itin day.id ui j).store day.id
              day.schedule.length)
            day.schedule.length := by
  refine ⟨countCompleted_eq_spec ui.store day.id day.schedule.length hnd, ?_⟩
  intro sess hsess
  have hte : toggleEvent itin day.id ui j =
      { store := (toggleItem ui.store (itemKey day.id j) sess).1
        items := ui.items.set j (toggleItem ui.store (itemKey day.id j) sess).2
        tabLabel := (updateDayProgress itin
            (toggleItem ui.store (itemKey day.id j) sess).1 day.id).getD
          ui.tabLabel } := by
    simp only [toggleEvent, hsess]
  have hst : (toggleEvent itin day.id ui j).store
      = setItem ui.store (itemKey day.id j)
          (Val.itemObj (!sess.completedShown) sess.saved.note) := by
    rw [hte]
    rfl
  have hnd2 : (storeKeys (toggleEvent itin day.id ui j).store).Nodup := by
    rw [hst]
    exact storeKeys_setItem_nodup _ _ _ hnd
  have hlabel : (toggleEvent itin day.id ui j).tabLabel
      = renderDayLabel day.id
          (countCompleted (toggleEvent itin day.id ui j).store day.id
            day.schedule.length) day.schedule.length := by
    conv_lhs => rw [hte]
    conv_rhs => rw [hte]
    simp [updateDayProgress, hfind]
  rw [hlabel, countCompleted_eq_spec _ _ _ hnd2]

/-- A concrete day with one schedule item, for the claim C1 witness. -/
def witnessDay : Day :=
  { id := 2, title := "t", subtitle := "s", highlight := none,
    schedule := [{ time := "9h", html := "x", transport := none }] }

/-- A concrete day panel session over an empty store. -/
def witnessDayUi : DayUi :=
  { store := [], items := [initItem [] (itemKey 2 0)],
    tabLabel := "Dia 2 (0/1)" }

/-- Claim C1 witness: toggling the only item of a one-item day starting
from an empty store. -/
theorem day_progress_invariant_witness :
    (([witnessDay].find? (fun d => natRepr d.id == natRepr witnessDay.id)
        = some witnessDay)
      ∧ (storeKeys witnessDayUi.store).Nodup
      ∧ witnessDayUi.items[0]? = some (initItem [] (itemKey 2 0))) ∧
    (toggleEvent [witnessDay] witnessDay.id witnessDayUi 0).tabLabel
      = renderDayLabel witnessDay.id
          (specCompletedCount
            (toggleEvent [witnessDay] witnessDay.id witnessDayUi 0).store
            witnessDay.id witnessDay.schedule.length)
          witnessDay.schedule.length :=
  ⟨⟨by decide, by decide, by decide⟩,
    (day_progress_invariant [witnessDay] witnessDay witnessDayUi 0
        (by decide) (by decide)).2 (initItem [] (itemKey 2 0)) (by decide)⟩

/-- A concrete page state with the tabs of a one-day itinerary plus the
diary, the day panel created and shown. -/
def sampleUi : UiState :=
  { itinerary := [sampleDay]
    tabs := [{ id := "1", selected := true }, { id := "diary", selected := false }]
    panels := [("1", true)]
    store := []
    url := [("dia", "1")] }

/-- Claim C8 counterexample: activating the id 2, which matches no tab of
the one-day itinerary, leaves no tab selected at all and shows no panel,
so neither is exactly one tab selected nor is a panel for the id
shown. -/
theorem openTab_unknown_id_counterexample :
    (openTab sampleUi "2").tabs.countP (fun t => t.selected) = 0 ∧
      (openTab sampleUi "2").panels.countP (fun p => p.2) = 0 := by
  refine ⟨by decide, by decide⟩

theorem countP_key_one_of_nodup_any (l : List (String × Bool)) (id : String)
    (hnd : (l.map Prod.fst).Nodup) (hmem : l.any (fun p => p.1 == id) = true) :
    l.countP (fun p => p.1 == id) = 1 := by
  induction l with
  | nil => cases hmem
  | cons p rest ih =>
    rw [List.map_cons, List.nodup_cons] at hnd
    rw [List.countP_cons]
    by_cases hp : p.1 = id
    · have hzero : rest.countP (fun q => q.1 == id) = 0 := by
        apply List.countP_eq_zero.mpr
        intro q hq hq1
        have hq2 : q.1 = id := by simpa using hq1
        apply hnd.1
        rw [hp, ← hq2]
        exact List.mem_map.mpr ⟨q, hq, rfl⟩
      rw [hzero, if_pos (by simp [hp])]
    · have hrest : rest.any (fun q => q.1 == id) = true := by
        rw [List.any_cons] at hmem
        rcases Bool.or_eq_true_iff.mp hmem with h1 | h1
        · exact absurd (by simpa using h1) hp
        · exact h1
      rw [ih hnd.2 hrest, if_neg (by simp [hp])]

/-- Claim C8 amended: for an id with exactly one matching tab that is
the diary or the stringified id of an itinerary day, and distinct panel
keys, openTab marks exactly one tab as selected and shows exactly the
panel stored under the id while hiding every other panel. -/
theorem openTab_selection_amended (ui : UiState) (id : String)
    (htab : ui.tabs.countP (fun t => t.id == id) = 1)
    (hpanel : (ui.panels.map Prod.fst).Nodup)
    (hid : id = "diary" ∨
      (ui.itinerary.find? (fun d => natRepr d.id == id)).isSome = true) :
    (openTab ui id).tabs.countP (fun t => t.selected) = 1 ∧
    (openTab ui id).panels.countP (fun p => p.2) = 1 ∧
    ∀ p ∈ (openTab ui id).panels, p.2 = true ↔ p.1 = id := by
  have htabs : (openTab ui id).tabs
      = ui.tabs.map (fun t => { t with selected := t.id == id }) := rfl
  have hpanels : (openTab ui id).panels
      = (if ui.panels.any (fun p => p.1 == id) then ui.panels
          else createPanel ui id).map (fun p => (p.1, p.1 == id)) := rfl
  have hpanels0 :
      (if ui.panels.any (fun p => p.1 == id) then ui.panels
        else createPanel ui id).countP (fun p => p.1 == id) = 1 := by
    by_cases hany : ui.panels.any (fun p => p.1 == id) = true
    · rw [if_pos hany]
      exact countP_key_one_of_nodup_any ui.panels id hpanel hany
    · rw [if_neg hany]
      have happend : createPanel ui id = ui.panels ++ [(id, false)] := by
        rcases hid with h | h
        · rw [createPanel, if_pos (by simp [h]), h]
        · rw [createPanel]
          cases hf : ui.itinerary.find? (fun d => natRepr d.id == id) with
          | some dd => by_cases hdy : id = "diary" <;> simp [hdy, hf]
          | none => rw [hf] at h; cases h
      rw [happend, List.countP_append]
      have hanyf : ui.panels.any (fun p => p.1 == id) = false := by
        cases h : ui.panels.any (fun p => p.1 == id) with
        | false => rfl
        | true => exact absurd h hany
      have hzero : ui.panels.countP (fun p => p.1 == id) = 0 := by
        apply List.countP_eq_zero.mpr
        intro q hq
        exact List.any_eq_false.mp hanyf q hq
      rw [hzero]
      simp
  refine ⟨?_, ?_, ?_⟩
  · rw [htabs, List.countP_map]
    calc (ui.tabs.countP ((fun t => t.selected)
          ∘ (fun t => { t with selected := t.id == id })))
        = ui.tabs.countP (fun t => t.id == id) := by
          apply List.countP_congr
          intro t _
          simp [Function.comp]
      _ = 1 := htab
  · rw [hpanels, List.countP_map]
    calc ((if ui.panels.any (fun p => p.1 == id) then ui.panels
          else createPanel ui id).countP ((fun p => p.2)
            ∘ (fun p => (p.1, p.1 == id))))
        = (if ui.panels.any (fun p => p.1 == id) then ui.panels
            else createPanel ui id).countP (fun p => p.1 == id) := by
          apply List.countP_congr
          intro q _
          simp [Function.comp]
      _ = 1 := hpanels0
  · intro p hp
    rw [hpanels] at hp
    rcases List.mem_map.mp hp with ⟨q, _, hq⟩
    rw [← hq]
    simp

/-- Claim C8 amended witness: activating the diary tab on the sample
page state. -/
theorem openTab_selection_amended_witness :
    (sampleUi.tabs.countP (fun t => t.id == "diary") = 1
      ∧ (sampleUi.panels.map Prod.fst).Nodup
      ∧ ("diary" = "diary" ∨
          (sampleUi.itinerary.find?
            (fun d => natRepr d.id == "diary")).isSome = true)) ∧
    ((openTab sampleUi "diary").tabs.countP (fun t => t.selected) = 1 ∧
      (openTab sampleUi "diary").panels.countP (fun p => p.2) = 1 ∧
      ∀ p ∈ (openTab sampleUi "diary").panels, p.2 = true ↔ p.1 = "diary") :=
  ⟨⟨by decide, by decide, Or.inl rfl⟩,
    openTab_selection_amended sampleUi "diary" (by decide) (by decide)
      (Or.inl rfl)⟩

theorem kb_right (ui : UiState) (f cur : Nat)
    (hsel : ui.tabs.findIdx? (fun t => t.selected) = some cur)
    (hcur : cur < ui.tabs.length) :
    ∃ t, ui.tabs[(cur + 1) % ui.tabs.length]? = some t ∧
      handleTabKeyNav ui f NavKey.arrowRight
        = (openTab ui t.id, (cur + 1) % ui.tabs.length) := by
  have hlen0 : ui.tabs.length ≠ 0 := by omega
  have hpos : 0 < ui.tabs.length := Nat.pos_of_ne_zero hlen0
  have hlenI : (0 : Int) < (ui.tabs.length : Int) := by exact_mod_cast hpos
  have hemod : ((cur : Int) + 1) % (ui.tabs.length : Int)
      = (((cur + 1) % ui.tabs.length : Nat) : Int) := by
    push_cast
    ring_nf
  have h1 : ¬(((cur : Int) + 1) % (ui.tabs.length : Int) < 0) := by
    have := Int.emod_nonneg ((cur : Int) + 1)
      (by omega : (ui.tabs.length : Int) ≠ 0)
    omega
  have h2 : ¬((ui.tabs.length : Int) ≤ ((cur : Int) + 1) % (ui.tabs.length : Int)) := by
    have := Int.emod_lt_of_pos ((cur : Int) + 1) hlenI
    omega
  have hnat : (((cur : Int) + 1) % (ui.tabs.length : Int)).toNat
      = (cur + 1) % ui.tabs.length := by
    rw [hemod]
    exact Int.toNat_natCast _
  have hvlt : (cur + 1) % ui.tabs.length < ui.tabs.length := Nat.mod_lt _ hpos
  have hsome : ui.tabs[(cur + 1) % ui.tabs.length]?
      = some (ui.tabs.get ⟨(cur + 1) % ui.tabs.length, hvlt⟩) := by
    rw [List.getElem?_eq_getElem hvlt, List.get_eq_getElem]
  refine ⟨ui.tabs.get ⟨(cur + 1) % ui.tabs.length, hvlt⟩, hsome, ?_⟩
  rw [handleTabKeyNav]
  rw [if_neg hlen0]
  simp only [hsel]
  rw [if_neg h1, if_neg h2, hnat, hsome]

theorem kb_left (ui : UiState) (f cur : Nat)
    (hsel : ui.tabs.findIdx? (fun t => t.selected) = some cur)
    (hcur : cur < ui.tabs.length) :
    ∃ t, ui.tabs[(cur + ui.tabs.length - 1) % ui.tabs.length]? = some t ∧
      handleTabKeyNav ui f NavKey.arrowLeft
        = (openTab ui t.id, (cur + ui.tabs.length - 1) % ui.tabs.length) := by
  have hlen0 : ui.tabs.length ≠ 0 := by omega
  have hpos : 0 < ui.tabs.length := Nat.pos_of_ne_zero hlen0
  have hlenI : (0 : Int) < (ui.tabs.length : Int) := by exact_mod_cast hpos
  have hcast : (cur : Int) - 1 + (ui.tabs.length : Int)
      = ((cur + ui.tabs.length - 1 : Nat) : Int) := by omega
  have hemod : ((cur : Int) - 1 + (ui.tabs.length : Int)) % (ui.tabs.length : Int)
      = (((cur + ui.tabs.length - 1) % ui.tabs.length : Nat) : Int) := by
    rw [hcast]
    push_cast
    ring_nf
  have h1 : ¬(((cur : Int) - 1 + (ui.tabs.length : Int)) % (ui.tabs.length : Int) < 0) := by
    have := Int.emod_nonneg ((cur : Int) - 1 + (ui.tabs.length : Int))
      (by omega : (ui.tabs.length : Int) ≠ 0)
    omega
  have h2 : ¬((ui.tabs.length : Int)
      ≤ ((cur : Int) - 1 + (ui.tabs.length : Int)) % (ui.tabs.length : Int)) := by
    have := Int.emod_lt_of_pos ((cur : Int) - 1 + (ui.tabs.length : Int)) hlenI
    omega
  have hnat : (((cur : Int) - 1 + (ui.tabs.length : Int)) % (ui.tabs.length : Int)).toNat
      = (cur + ui.tabs.length - 1) % ui.tabs.length := by
    rw [hemod]
    exact Int.toNat_natCast _
  have hvlt : (cur + ui.tabs.length - 1) % ui.tabs.length < ui.tabs.length :=
    Nat.mod_lt _ hpos
  have hsome : ui.tabs[(cur + ui.tabs.length - 1) % ui.tabs.length]?
      = some (ui.tabs.get ⟨(cur + ui.tabs.length - 1) % ui.tabs.length, hvlt⟩) := by
    rw [List.getElem?_eq_getElem hvlt, List.get_eq_getElem]
  refine ⟨ui.tabs.get ⟨(cur + ui.tabs.length - 1) % ui.tabs.length, hvlt⟩, hsome, ?_⟩
  rw [handleTabKeyNav]
  rw [if_neg hlen0]
  simp only [hsel]
  rw [if_neg h1, if_neg h2, hnat, hsome]

theorem kb_home (ui : UiState) (f cur : Nat)
    (hsel : ui.tabs.findIdx? (fun t => t.selected) = some cur)
    (hcur : cur < ui.tabs.length) :
    ∃ t, ui.tabs[0]? = some t ∧
      handleTabKeyNav ui f NavKey.homeKey = (openTab ui t.id, 0) := by
  have hlen0 : ui.tabs.length ≠ 0 := by omega
  have hpos : 0 < ui.tabs.length := Nat.pos_of_ne_zero hlen0
  have hlenI : (0 : Int) < (ui.tabs.length : Int) := by exact_mod_cast hpos
  have hsome : ui.tabs[0]? = some (ui.tabs.get ⟨0, hpos⟩) := by
    rw [List.getElem?_eq_getElem hpos, List.get_eq_getElem]
  refine ⟨ui.tabs.get ⟨0, hpos⟩, hsome, ?_⟩
  rw [handleTabKeyNav]
  rw [if_neg hlen0]
  simp only [hsel]
  rw [if_neg (by omega : ¬((0 : Int) < 0)), if_neg (by omega : ¬((ui.tabs.length : Int) ≤ 0))]
  rw [(by rfl : (0 : Int).toNat = 0), hsome]

theorem kb_end (ui : UiState) (f cur : Nat)
    (hsel : ui.tabs.findIdx? (fun t => t.selected) = some cur)
    (hcur : cur < ui.tabs.length) :
    ∃ t, ui.tabs[ui.tabs.length - 1]? = some t ∧
      handleTabKeyNav ui f NavKey.endKey
        = (openTab ui t.id, ui.tabs.length - 1) := by
  have hlen0 : ui.tabs.length ≠ 0 := by omega
  have hpos : 0 < ui.tabs.length := Nat.pos_of_ne_zero hlen0
  have hvlt : ui.tabs.length - 1 < ui.tabs.length := by omega
  have hsome : ui.tabs[ui.tabs.length - 1]?
      = some (ui.tabs.get ⟨ui.tabs.length - 1, hvlt⟩) := by
    rw [List.getElem?_eq_getElem hvlt, List.get_eq_getElem]
  refine ⟨ui.tabs.get ⟨ui.tabs.length - 1, hvlt⟩, hsome, ?_⟩
  rw [handleTabKeyNav]
  rw [if_neg hlen0]
  simp only [hsel]
  have hnotneg : ¬((ui.tabs.length : Int) - 1 < 0) := by omega
  have hnotbig : ¬((ui.tabs.length : Int) ≤ (ui.tabs.length : Int) - 1) := by omega
  have hton : ((ui.tabs.length : Int) - 1).toNat = ui.tabs.length - 1 := by omega
  rw [if_neg hnotneg, if_neg hnotbig, hton, hsome]

theorem kb_enter (ui : UiState) (f cur : Nat)
    (hsel : ui.tabs.findIdx? (fun t => t.selected) = some cur)
    (hcur : cur < ui.tabs.length) :
    ∀ t, ui.tabs[f]? = some t →
      handleTabKeyNav ui f NavKey.enterOrSpace = (openTab ui t.id, f) := by
  intro t ht
  have hlen0 : ui.tabs.length ≠ 0 := by omega
  rw [handleTabKeyNav]
  rw [if_neg hlen0]
  simp only [hsel, ht]

/-- Claim C9: with a selected tab at index cur, the right arrow moves the
focus to the cyclic successor (wrapping from the last tab to the first)
and activates it, the left arrow moves to the cyclic predecessor
(wrapping from the first tab to the last) and activates it, Home moves to
the first tab and End to the last, and Enter or Space activates the
focused tab while leaving the focus target unchanged. -/
theorem keyboard_navigation (ui : UiState) (f cur : Nat)
    (hsel : ui.tabs.findIdx? (fun t => t.selected) = some cur)
    (hcur : cur < ui.tabs.length) :
    (∃ t, ui.tabs[(cur + 1) % ui.tabs.length]? = some t ∧
      handleTabKeyNav ui f NavKey.arrowRight
        = (openTab ui t.id, (cur + 1) % ui.tabs.length)) ∧
    (∃ t, ui.tabs[(cur + ui.tabs.length - 1) % ui.tabs.length]? = some t ∧
      handleTabKeyNav ui f NavKey.arrowLeft
        = (openTab ui t.id, (cur + ui.tabs.length - 1) % ui.tabs.length)) ∧
    (∃ t, ui.tabs[0]? = some t ∧
      handleTabKeyNav ui f NavKey.homeKey = (openTab ui t.id, 0)) ∧
    (∃ t, ui.tabs[ui.tabs.length - 1]? = some t ∧
      handleTabKeyNav ui f NavKey.endKey
        = (openTab ui t.id, ui.tabs.length - 1)) ∧
    (∀ t, ui.tabs[f]? = some t →
      handleTabKeyNav ui f NavKey.enterOrSpace = (openTab ui t.id, f)) :=
  ⟨kb_right ui f cur hsel hcur, kb_left ui f cur hsel hcur,
    kb_home ui f cur hsel hcur, kb_end ui f cur hsel hcur,
    kb_enter ui f cur hsel hcur⟩

/-- Claim C9 witness: the sample page state with the day tab selected and
focused. -/
theorem keyboard_navigation_witness :
    (sampleUi.tabs.findIdx? (fun t => t.selected) = some 0
      ∧ 0 < sampleUi.tabs.length) ∧
    ((∃ t, sampleUi.tabs[(0 + 1) % sampleUi.tabs.length]? = some t ∧
      handleTabKeyNav sampleUi 0 NavKey.arrowRight
        = (openTab sampleUi t.id, (0 + 1) % sampleUi.tabs.length)) ∧
    (∃ t, sampleUi.tabs[(0 + sampleUi.tabs.length - 1) % sampleUi.tabs.length]?
        = some t ∧
      handleTabKeyNav sampleUi 0 NavKey.arrowLeft
        = (openTab sampleUi t.id,
            (0 + sampleUi.tabs.length - 1) % sampleUi.tabs.length)) ∧
    (∃ t, sampleUi.tabs[0]? = some t ∧
      handleTabKeyNav sampleUi 0 NavKey.homeKey = (openTab sampleUi t.id, 0)) ∧
    (∃ t, sampleUi.tabs[sampleUi.tabs.length - 1]? = some t ∧
      handleTabKeyNav sampleUi 0 NavKey.endKey
        = (openTab sampleUi t.id, sampleUi.tabs.length - 1)) ∧
    (∀ t, sampleUi.tabs[0]? = some t →
      handleTabKeyNav sampleUi 0 NavKey.enterOrSpace
        = (openTab sampleUi t.id, 0))) :=
  ⟨⟨by decide, by decide⟩,
    keyboard_navigation sampleUi 0 0 (by decide) (by decide)⟩
